import Mathlib

/-!
Verification of the ticket-drafting core: a shallow embedding of the
repository's domain types, slugifier, heuristic draft generator,
language-model draft validation gate, bounded draft cache, Jira input
validation and the ticket workflow orchestrator, together with theorems
settling the specification claims.

Strings are modelled with Lean `String` (a wrapper around `List Char`).
Rust's `str::trim`, `to_lowercase`, `char::is_whitespace` and
`is_ascii_alphanumeric` are modelled at the ASCII level (the code paths
under verification only distinguish ASCII characters).  The blake3 hash
used by the cache key is an external library; it is modelled as an
arbitrary function applied to the exact character stream the source
feeds it (UTF-8 encoding of equal strings is equal, so string-level
equality of the stream coincides with byte-level equality).
-/

/-- ASCII model of Rust `char::is_whitespace` (space, tab, newline, carriage return). -/
def isAsciiWhitespace (c : Char) : Bool :=
  c == ' ' || c == '\t' || c == '\n' || c == '\r'

/-- ASCII model of Rust `char::is_ascii_alphanumeric`. -/
def isAsciiAlphanumeric (c : Char) : Bool :=
  decide (48 ≤ c.toNat ∧ c.toNat ≤ 57) ||
  decide (65 ≤ c.toNat ∧ c.toNat ≤ 90) ||
  decide (97 ≤ c.toNat ∧ c.toNat ≤ 122)

/-- Rust `char::to_ascii_lowercase` (also the ASCII model of `to_lowercase`). -/
def toAsciiLower (c : Char) : Char :=
  if 65 ≤ c.toNat ∧ c.toNat ≤ 90 then Char.ofNat (c.toNat + 32) else c

/-- Lowercase every character (ASCII model of Rust `str::to_lowercase`). -/
def lowerList (l : List Char) : List Char := l.map toAsciiLower

/-- String-level lowercasing. -/
def lowerS (s : String) : String := ⟨lowerList s.data⟩

/-- Drop trailing characters satisfying `p`. -/
def dropTrailing (p : Char → Bool) (l : List Char) : List Char :=
  (l.reverse.dropWhile p).reverse

/-- Rust `str::trim_matches(p)`: drop characters satisfying `p` at both ends. -/
def trimBothP (p : Char → Bool) (l : List Char) : List Char :=
  dropTrailing p (l.dropWhile p)

/-- Rust `str::trim` on the character list: drop whitespace at both ends. -/
def trimList (l : List Char) : List Char :=
  trimBothP isAsciiWhitespace l

/-- String-level trim, as used throughout the source. -/
def trimS (s : String) : String := ⟨trimList s.data⟩

/-- Rust `str::contains` (substring containment). -/
def containsSub (s pat : String) : Bool := decide (pat.data <:+: s.data)

/-- Rust `str::split_whitespace`: maximal runs of non-whitespace characters. -/
def splitWS (l : List Char) : List (List Char) :=
  (l.splitOnP isAsciiWhitespace).filter (fun w => !w.isEmpty)

/-- Rust `Vec::join("-")` on character lists. -/
def joinHyphens : List (List Char) → List Char
  | [] => []
  | [w] => w
  | w :: ws => w ++ '-' :: joinHyphens ws

/-- The branch category enumeration from `src/domain/branch.rs`. -/
inductive BranchCategory
  | Feature
  | Fix
  | Quality
deriving DecidableEq

/-- `BranchCategory::as_str`. -/
def BranchCategory.as_str : BranchCategory → String
  | .Feature => "feature"
  | .Fix => "fix"
  | .Quality => "quality"

/-- `BranchCategory::from_str`: case-insensitive parse after trimming. -/
def BranchCategory.from_str (value : String) : Option BranchCategory :=
  let v := lowerS (trimS value)
  if v = "feature" then some .Feature
  else if v = "fix" then some .Fix
  else if v = "quality" then some .Quality
  else none

/-- `TicketDraft` from `src/domain/ticket.rs`. -/
structure TicketDraft where
  title : String
  description : String
  branch_category : BranchCategory
  branch_summary : String
deriving DecidableEq

/-- `Ticket` from `src/domain/ticket.rs`. -/
structure Ticket where
  key : String
  url : Option String
deriving DecidableEq

/-- `ChangeSummary` from `src/domain/change.rs`. -/
structure ChangeSummary where
  files_changed : Nat
  summary : String
deriving DecidableEq

/-- `AppError` from `src/error.rs` (the `Io` payload is the error text). -/
inductive AppError
  | Configuration (msg : String)
  | VersionControl (msg : String)
  | IssueTracker (msg : String)
  | LanguageModel (msg : String)
  | Io (msg : String)
deriving DecidableEq

/-- Character mapping step of `slugify` (`src/domain/branch.rs`): ASCII
alphanumerics are lowercased, every other character (whitespace, `-`, `_`,
`/`, and anything else) becomes a hyphen.  Both non-alphanumeric source
branches are kept to mirror the source. -/
def mapSlugChar (c : Char) : Char :=
  if isAsciiAlphanumeric c then toAsciiLower c
  else if isAsciiWhitespace c || c == '-' || c == '_' || c == '/' then '-'
  else '-'

/-- Rust `str::trim_matches('-')`: drop hyphens at both ends. -/
def trimDashes (l : List Char) : List Char :=
  trimBothP (fun c => c == '-') l

/-- The hyphen-collapsing loop of `slugify`, with its `prev_dash` state. -/
def collapseDashes : List Char → Bool → List Char
  | [], _ => []
  | c :: rest, prev =>
    if c == '-' then
      if prev then collapseDashes rest true else c :: collapseDashes rest true
    else c :: collapseDashes rest false

/-- `slugify` on character lists: map, trim hyphens, collapse runs, fall
back to the placeholder `"summary"` when empty. -/
def slugifyList (l : List Char) : List Char :=
  let r := collapseDashes (trimDashes (l.map mapSlugChar)) false
  if r = [] then "summary".data else r

/-- `slugify` from `src/domain/branch.rs`. -/
def slugify (s : String) : String := ⟨slugifyList s.data⟩

/-- `BranchName::from_parts`: `"{category}/{trimmed key}/{slug}"`. -/
def BranchName.from_parts (category : BranchCategory) (ticket_key summary : String) : String :=
  category.as_str ++ "/" ++ trimS ticket_key ++ "/" ++ slugify summary

/-- `heuristic_category` from `src/infra/llm.rs`: keyword scan over the
lowercased summary, first matching rule wins. -/
def heuristic_category (changes : ChangeSummary) : BranchCategory :=
  let lower := lowerS changes.summary
  if containsSub lower "fix" || containsSub lower "bug" || containsSub lower "error" then
    .Fix
  else if containsSub lower "refactor" || containsSub lower "cleanup" ||
      containsSub lower "docs" || containsSub lower "chore" then
    .Quality
  else
    .Feature

/-- `heuristic_summary` from `src/infra/llm.rs`: words of the trimmed
summary, first 8, each filtered to ASCII alphanumerics and hyphens and
lowercased, empties dropped, hyphen-joined; with the `pending-update` /
`update-N-files` fallbacks. -/
def heuristic_summary (changes : ChangeSummary) : String :=
  let summary := trimS changes.summary
  if summary = "" then
    if changes.files_changed = 0 then "pending-update"
    else "update-" ++ toString changes.files_changed ++ "-files"
  else
    let words := (((splitWS summary.data).take 8).map
        (fun w => lowerList (w.filter (fun c => isAsciiAlphanumeric c || c == '-')))).filter
      (fun w => !w.isEmpty)
    if words.isEmpty then "pending-update" else ⟨joinHyphens words⟩

/-- Rust `str::replace('-', ' ')`. -/
def replaceHyphenBySpace (s : String) : String :=
  ⟨s.data.map (fun c => if c == '-' then ' ' else c)⟩

/-- `heuristic_ticket` from `src/infra/llm.rs`. -/
def heuristic_ticket (changes : ChangeSummary) : TicketDraft :=
  let branch_category := heuristic_category changes
  let branch_summary := heuristic_summary changes
  let description :=
    if changes.summary = "" then
      "Summarize the local modifications before creating the ticket."
    else
      "Summary of uncommitted work:\n" ++ changes.summary
  let title :=
    match branch_category with
    | .Feature => "Add " ++ replaceHyphenBySpace branch_summary
    | .Fix => "Fix " ++ replaceHyphenBySpace branch_summary
    | .Quality => "Improve " ++ replaceHyphenBySpace branch_summary
  { title := title, description := description,
    branch_category := branch_category, branch_summary := branch_summary }

/-- One part of a Gemini candidate (`CandidatePart` in `src/infra/llm.rs`). -/
structure CandidatePart where
  text : Option String
deriving DecidableEq

/-- Content of a Gemini candidate (`CandidateContent`). -/
structure CandidateContent where
  parts : List CandidatePart
deriving DecidableEq

/-- One Gemini candidate (`Candidate`). -/
structure Candidate where
  content : Option CandidateContent
deriving DecidableEq

/-- Parsed response envelope (`GenerateContentResponse`). -/
structure GenerateContentResponse where
  candidates : List Candidate
deriving DecidableEq

/-- The strict JSON draft shape Gemini is asked for (`GeminiDraft`). -/
structure GeminiDraft where
  title : String
  description : String
  branch_category : String
  branch_summary : String
deriving DecidableEq

/-- Outcome of the single HTTP exchange in `draft_ticket`: the send can
fail, or return a status (success flag) with a body that parses to the
envelope or not. -/
inductive HttpOutcome
  | sendError
  | response (success : Bool) (body : Option GenerateContentResponse)
deriving DecidableEq

/-- Environment of one `draft_ticket` call: the HTTP outcome plus the
`serde_json::from_str::<GeminiDraft>` parser applied to the normalized
candidate text (JSON parsing is external to the code under test). -/
structure GeminiEnv where
  http : HttpOutcome
  parseDraft : String → Option GeminiDraft

/-- The backtick character (used by the code-fence stripping). -/
def tickMark : Char := Char.ofNat 96

/-- Rust `str::trim_start_matches("\x60\x60\x60")`: remove every leading
occurrence of the triple backtick.  Fuel-indexed structural recursion
(the caller passes the list length, which bounds the number of removals). -/
def dropTickRuns : Nat → List Char → List Char
  | 0, l => l
  | fuel + 1, l =>
    if l.take 3 = [tickMark, tickMark, tickMark] then dropTickRuns fuel (l.drop 3) else l

/-- `normalize_json_blob` from `src/infra/llm.rs`: strip surrounding
code-fence markup, then keep the substring between the first `{` and the
last `}` (byte indices are modelled as character indices; the inputs the
code cares about are ASCII). -/
def normalize_json_blob (input : String) : String :=
  let t0 := trimList input.data
  let t :=
    if t0.take 3 = [tickMark, tickMark, tickMark] then
      let t1 := (dropTickRuns t0.length t0).dropWhile isAsciiWhitespace
      let t2 :=
        if 4 ≤ t1.length ∧ lowerList (t1.take 4) = "json".data then
          (t1.drop 4).dropWhile isAsciiWhitespace
        else t1
      let t3 := dropTrailing isAsciiWhitespace t2
      if t3.reverse.take 3 = [tickMark, tickMark, tickMark] then
        dropTrailing isAsciiWhitespace (t3.take (t3.length - 3))
      else t3
    else t0
  match List.findIdx? (fun c => c == '{') t, List.findIdx? (fun c => c == '}') t.reverse with
  | some s, some rj => ⟨(t.drop s).take (t.length - 1 - rj + 1 - s)⟩
  | _, _ => ⟨t⟩

/-- Candidate-text extraction in `draft_ticket`: first non-empty trimmed
text part across all candidates. -/
def candidate_text (payload : GenerateContentResponse) : Option String :=
  ((((payload.candidates.filterMap Candidate.content).map CandidateContent.parts).flatten.filterMap
      CandidatePart.text).map trimS).find? (fun t => t != "")

/-- The validation gate of `draft_ticket` on the parsed model output
(source lines 112-157): every check falls back to the heuristic draft,
the empty `branch_summary` case substitutes the heuristic slug.  All of
these code paths return `Ok(...)` in the source, so the gate is factored
as a total function into `TicketDraft`. -/
def validate_draft (changes : ChangeSummary) (parsed : Option GeminiDraft) : TicketDraft :=
  match parsed with
  | none => heuristic_ticket changes
  | some draft =>
    match BranchCategory.from_str draft.branch_category with
    | none => heuristic_ticket changes
    | some branch_category =>
      let branch_summary :=
        if trimS draft.branch_summary = "" then heuristic_summary changes
        else lowerS (trimS draft.branch_summary)
      let title := trimS draft.title
      if title = "" then heuristic_ticket changes
      else
        let description := trimS draft.description
        if description = "" then heuristic_ticket changes
        else { title := title, description := description,
               branch_category := branch_category,
               branch_summary := branch_summary }

/-- `GeminiClient::draft_ticket` from `src/infra/llm.rs`: the language-model
call with its validation gate and heuristic fallback. -/
def draft_ticket (api_key : Option String) (changes : ChangeSummary) (env : GeminiEnv) :
    Except AppError TicketDraft :=
  match api_key with
  | none => .error (.Configuration "Gemini API key not configured")
  | some _ =>
    match env.http with
    | .sendError => .ok (heuristic_ticket changes)
    | .response success body =>
      if success then
        match body with
        | none => .ok (heuristic_ticket changes)
        | some payload =>
          match candidate_text payload with
          | none => .error (.LanguageModel "Gemini returned an empty response")
          | some text =>
            .ok (validate_draft changes (env.parseDraft (normalize_json_blob text)))
      else .ok (heuristic_ticket changes)

/-- Persisted cache entry (`CacheEntry` in `src/cache.rs`). -/
structure CacheEntry where
  key : String
  title : String
  description : String
  branch_category : String
  branch_summary : String
deriving DecidableEq

/-- `CACHE_LIMIT` from `src/cache.rs`. -/
def CACHE_LIMIT : Nat := 32

/-- The entry built by `TicketDraftCache::insert` for a draft. -/
def TicketDraftCache.entryOf (key : String) (draft : TicketDraft) : CacheEntry :=
  { key := key, title := draft.title, description := draft.description,
    branch_category := draft.branch_category.as_str,
    branch_summary := draft.branch_summary }

/-- `TicketDraftCache::insert`: drop entries with the same key, push the
new entry at the back, then drain from the front down to the capacity.
The cache state is the in-memory `entries` vector. -/
def TicketDraftCache.insert (entries : List CacheEntry) (key : String) (draft : TicketDraft) :
    List CacheEntry :=
  let pushed := entries.filter (fun e => e.key != key) ++ [TicketDraftCache.entryOf key draft]
  if pushed.length > CACHE_LIMIT then pushed.drop (pushed.length - CACHE_LIMIT) else pushed

/-- `TicketDraftCache::get`: linear scan, unknown stored categories decode
to `Feature`. -/
def TicketDraftCache.get (entries : List CacheEntry) (key : String) : Option TicketDraft :=
  (entries.find? (fun e => e.key == key)).map (fun e =>
    { title := e.title, description := e.description,
      branch_category := (BranchCategory.from_str e.branch_category).getD .Feature,
      branch_summary := e.branch_summary })

/-- The character stream `TicketDraftCache::compute_key` feeds to the
blake3 hasher: summary, then the decimal text of `files_changed`, then
the board when present. -/
def computeKeyInput (summary : String) (files_changed : Nat) (board : Option String) : String :=
  summary ++ toString files_changed ++
    (match board with | some b => b | none => "")

/-- `TicketDraftCache::compute_key`, parameterized by the hash function
(blake3 is an external collaborator; every hash receives exactly the
stream `computeKeyInput` describes). -/
def compute_key {α : Type} (hash : String → α) (summary : String) (files_changed : Nat)
    (board : Option String) : α :=
  hash (computeKeyInput summary files_changed board)

/-- Numeric value of a decimal digit character (used to invert `Nat.repr`). -/
def digitVal (c : Char) : Nat := c.toNat - 48

/-- Reads a decimal digit string back into a number (left inverse of
`Nat.repr`, used to prove the representation injective). -/
def readDigits (l : List Char) : Nat := l.foldl (fun a c => 10 * a + digitVal c) 0

/-- Parsed Jira creation response (`JiraCreateIssueResponse`). -/
structure JiraCreateIssueResponse where
  key : String
  self_url : Option String
deriving DecidableEq

/-- Outcome of the Jira HTTP exchange: send failure (with its error text),
or a status (success flag, status text) and a body that parses or not. -/
inductive JiraHttp
  | sendError (msg : String)
  | response (success : Bool) (statusText : String) (body : Option JiraCreateIssueResponse)
deriving DecidableEq

/-- Environment of one `JiraClient::create_ticket` call: the client's
optional credentials and the HTTP outcome. -/
structure JiraEnv where
  base_url : Option String
  email : Option String
  token : Option String
  http : JiraHttp
deriving DecidableEq

/-- Rust `str::trim_end_matches('/')`. -/
def trimEndSlashes (s : String) : String := ⟨dropTrailing (fun c => c == '/') s.data⟩

/-- `JiraClient::browse_url`. -/
def JiraClient.browse_url (base_url key : String) : String :=
  trimEndSlashes base_url ++ "/browse/" ++ key

/-- `JiraClient::create_ticket` from `src/infra/jira.rs`.  The returned
`Bool` records whether any transport activity happened (the HTTP send). -/
def JiraClient.create_ticket (env : JiraEnv) (board : String) (draft : TicketDraft) :
    Except AppError Ticket × Bool :=
  let board_key := trimS board
  if board_key = "" then
    (.error (.IssueTracker "board key must not be empty"), false)
  else if trimS draft.title = "" then
    (.error (.LanguageModel "language model returned an empty title"), false)
  else if trimS draft.branch_summary = "" then
    (.error (.LanguageModel "language model returned an empty branch summary"), false)
  else
    match env.base_url, env.email, env.token with
    | none, _, _ => (.error (.Configuration "Jira base URL not configured"), false)
    | some _, none, _ => (.error (.Configuration "Jira email not configured"), false)
    | some _, some _, none => (.error (.Configuration "Jira API token not configured"), false)
    | some base_url, some _, some _ =>
      match env.http with
      | .sendError msg => (.error (.IssueTracker ("failed to call Jira: " ++ msg)), true)
      | .response success statusText body =>
        if success then
          match body with
          | none => (.error (.IssueTracker "failed to parse Jira response"), true)
          | some payload =>
            let url := payload.self_url.getD (JiraClient.browse_url base_url payload.key)
            (.ok { key := payload.key, url := some url }, true)
        else (.error (.IssueTracker ("Jira responded with " ++ statusText)), true)

/-- The external calls the workflow can attempt, in the order the
orchestrator makes them. -/
inductive ExtCall
  | summarize
  | cacheLoad
  | languageModel
  | cacheSave
  | issueTracker
  | checkout
deriving DecidableEq

/-- Environment of one `create_ticket_from_changes` run: the configured
default board, the collaborators' responses, and the cache-key hash. -/
structure WorkflowEnv where
  default_board : Option String
  summarize : Except AppError ChangeSummary
  cacheLoad : Except AppError (List CacheEntry)
  draftTicket : ChangeSummary → Except AppError TicketDraft
  createTicket : String → TicketDraft → Except AppError Ticket
  checkout : String → Except AppError Unit
  hash : String → String

/-- Steps 5-9 of the workflow: description guard, ticket creation, branch
summary guard, branch derivation, checkout. -/
def workflowTicketStage (env : WorkflowEnv) (board : String) (draft : TicketDraft)
    (calls : List ExtCall) : Except AppError (Ticket × String) × List ExtCall :=
  if trimS draft.description = "" then
    (.error (.LanguageModel "language model returned an empty description"), calls)
  else
    match env.createTicket board draft with
    | .error e => (.error e, calls ++ [.issueTracker])
    | .ok ticket =>
      if trimS draft.branch_summary = "" then
        (.error (.LanguageModel "language model returned an empty branch summary"),
          calls ++ [.issueTracker])
      else
        let branch_name :=
          BranchName.from_parts draft.branch_category ticket.key (trimS draft.branch_summary)
        match env.checkout branch_name with
        | .error e => (.error e, calls ++ [.issueTracker, .checkout])
        | .ok _ => (.ok (ticket, branch_name), calls ++ [.issueTracker, .checkout])

/-- `create_ticket_from_changes` from `src/workflow/ticket.rs`, returning
the outcome together with the trace of external calls attempted. -/
def create_ticket_from_changes (env : WorkflowEnv) (board_override : Option String) :
    Except AppError (Ticket × String) × List ExtCall :=
  match (match board_override with | some b => some b | none => env.default_board) with
  | none => (.error (.Configuration "no board configured"), [])
  | some board =>
    match env.summarize with
    | .error e => (.error e, [.summarize])
    | .ok changes =>
      let cache_key := compute_key env.hash changes.summary changes.files_changed (some board)
      match env.cacheLoad with
      | .ok entries =>
        match TicketDraftCache.get entries cache_key with
        | some cached => workflowTicketStage env board cached [.summarize, .cacheLoad]
        | none =>
          match env.draftTicket changes with
          | .error e => (.error e, [.summarize, .cacheLoad, .languageModel])
          | .ok generated =>
            workflowTicketStage env board generated
              [.summarize, .cacheLoad, .languageModel, .cacheSave]
      | .error _ =>
        match env.draftTicket changes with
        | .error e => (.error e, [.summarize, .cacheLoad, .languageModel])
        | .ok generated =>
          workflowTicketStage env board generated [.summarize, .cacheLoad, .languageModel]

/-- Word list named by the specification for the heuristic summary-slug:
first 8 whitespace-separated words, each stripped to ASCII letters,
digits and hyphens and lowercased, empties dropped. -/
def claimWords (s : String) : List (List Char) :=
  (((splitWS s.data).take 8).map
      (fun w => lowerList (w.filter (fun c => isAsciiAlphanumeric c || c == '-')))).filter
    (fun w => !w.isEmpty)

/-- The heuristic summary-slug exactly as the claim words it: the
emptiness test is on `summary` itself ("when summary is empty"). -/
def claimHeuristicSummary (changes : ChangeSummary) : String :=
  if changes.summary = "" then
    if changes.files_changed = 0 then "pending-update"
    else "update-" ++ toString changes.files_changed ++ "-files"
  else if (claimWords changes.summary).isEmpty then "pending-update"
  else ⟨joinHyphens (claimWords changes.summary)⟩

/-- The heuristic summary-slug claim amended minimally: the emptiness
test is on the summary after trimming. -/
def amendedHeuristicSummary (changes : ChangeSummary) : String :=
  if trimS changes.summary = "" then
    if changes.files_changed = 0 then "pending-update"
    else "update-" ++ toString changes.files_changed ++ "-files"
  else if (claimWords changes.summary).isEmpty then "pending-update"
  else ⟨joinHyphens (claimWords changes.summary)⟩

/-- The one `draft_ticket` situation that is not recovered internally
(besides the missing API key): a successful, parseable response that
contains no non-empty text part. -/
def emptyTextResponse (env : GeminiEnv) : Prop :=
  match env.http with
  | .response true (some payload) => candidate_text payload = none
  | _ => False

/-- Workflow environment with no configured default board (for the C7
witness). -/
def wfEnvNoBoard : WorkflowEnv where
  default_board := none
  summarize := .ok ⟨0, ""⟩
  cacheLoad := .ok []
  draftTicket := fun c => .ok (heuristic_ticket c)
  createTicket := fun _ _ => .ok ⟨"TCK-1", none⟩
  checkout := fun _ => .ok ()
  hash := fun s => s

/-- Gemini environment whose successful response has no non-empty text
part (for the C1 counterexample). -/
def gmEnvEmptyText : GeminiEnv where
  http := .response true (some ⟨[⟨some ⟨[⟨some "  "⟩, ⟨none⟩]⟩⟩, ⟨none⟩]⟩)
  parseDraft := fun _ => none

/-- Gemini environment whose response is accepted by every validation
gate (for the C10 witness). -/
def gmEnvAccepted : GeminiEnv where
  http := .response true (some ⟨[⟨some ⟨[⟨some "x"⟩]⟩⟩]⟩)
  parseDraft := fun _ => some ⟨" New Title ", " New Description ", "feature", " My-Slug "⟩

/-- Jira environment with full credentials and a working transport (for
the C9 witness: validation must reject before this is ever consulted). -/
def jiraEnvReady : JiraEnv where
  base_url := some "https://example.atlassian.net"
  email := some "dev@example.com"
  token := some "token"
  http := .response true "200 OK" (some ⟨"TCK-7", none⟩)

/-- C8 helper: a draft with an empty title (after trimming). -/
def draftEmptyTitle : TicketDraft where
  title := "   "
  description := "d"
  branch_category := .Feature
  branch_summary := "s"

/-- C8 helper: a well-formed draft. -/
def draftOk : TicketDraft where
  title := "t"
  description := "d"
  branch_category := .Feature
  branch_summary := "s"

/-- The cache contents after inserting forty distinct decimal keys into
an empty cache (for the concrete part of C2). -/
def cacheAfter40 : List CacheEntry :=
  ((List.range 40).map (fun i => toString i)).foldl
    (fun es k => TicketDraftCache.insert es k draftOk) []

/-- C7: with no board override and no configured default board, the
workflow fails with a Configuration error and the external-call trace is
empty: no change summarization, cache access, language-model, tracker or
checkout call is attempted. -/
theorem claim_C7_board_abort (env : WorkflowEnv) (h : env.default_board = none) :
    create_ticket_from_changes env none =
      (.error (.Configuration "no board configured"), ([] : List ExtCall)) := by
  unfold create_ticket_from_changes
  rw [show (match (none : Option String) with
        | some b => some b | none => env.default_board) = env.default_board from rfl, h]

/-- C7 witness: the abort observed on a concrete environment. -/
theorem claim_C7_board_abort_witness :
    create_ticket_from_changes wfEnvNoBoard none =
      (.error (.Configuration "no board configured"), ([] : List ExtCall)) :=
  claim_C7_board_abort wfEnvNoBoard rfl

/-- C8: `BranchName::from_parts` is exactly
`"{canonical lowercase category}/{trimmed ticket key}/{slugify summary}"`,
the category string is its own lowercase form, and the concrete example
from the specification holds. -/
theorem claim_C8_from_parts (cat : BranchCategory) (key summary : String) :
    BranchName.from_parts cat key summary =
        cat.as_str ++ "/" ++ trimS key ++ "/" ++ slugify summary
    ∧ lowerS cat.as_str = cat.as_str
    ∧ BranchName.from_parts .Feature "TCK-12" "Add Git integration for checkout" =
        "feature/TCK-12/add-git-integration-for-checkout" :=
  ⟨rfl, by cases cat <;> decide, by decide⟩

/-- C9: `JiraClient::create_ticket` rejects a board key that is empty
after trimming, and a draft title that is empty after trimming, before
any transport activity (the traced transport flag stays `false`), with
validation error payloads rather than transport failures. -/
theorem claim_C9_input_validation (env : JiraEnv) (board : String) (draft : TicketDraft) :
    (trimS board = "" →
      JiraClient.create_ticket env board draft =
        (.error (.IssueTracker "board key must not be empty"), false))
    ∧ (trimS board ≠ "" → trimS draft.title = "" →
      JiraClient.create_ticket env board draft =
        (.error (.LanguageModel "language model returned an empty title"), false)) := by
  constructor
  · intro h
    unfold JiraClient.create_ticket
    rw [if_pos h]
  · intro hb ht
    unfold JiraClient.create_ticket
    rw [if_neg hb, if_pos ht]

/-- C9 witness: both rejections observed on concrete inputs against a
fully configured, working transport. -/
theorem claim_C9_input_validation_witness :
    JiraClient.create_ticket jiraEnvReady "   " draftOk =
        (.error (.IssueTracker "board key must not be empty"), false)
    ∧ JiraClient.create_ticket jiraEnvReady "TCK" draftEmptyTitle =
        (.error (.LanguageModel "language model returned an empty title"), false) :=
  ⟨(claim_C9_input_validation jiraEnvReady "   " draftOk).1 (by decide),
   (claim_C9_input_validation jiraEnvReady "TCK" draftEmptyTitle).2 (by decide) (by decide)⟩

/-- C5: the heuristic category scans the lowercased summary: Fix on
"fix"/"bug"/"error", else Quality on "refactor"/"cleanup"/"docs"/"chore",
else Feature, first rule winning; with the three concrete examples. -/
theorem claim_C5_heuristic_category (cs : ChangeSummary) :
    (heuristic_category cs = .Fix ↔
      (containsSub (lowerS cs.summary) "fix" || containsSub (lowerS cs.summary) "bug" ||
        containsSub (lowerS cs.summary) "error") = true)
    ∧ (heuristic_category cs = .Quality ↔
      ((containsSub (lowerS cs.summary) "fix" || containsSub (lowerS cs.summary) "bug" ||
        containsSub (lowerS cs.summary) "error") = false ∧
       (containsSub (lowerS cs.summary) "refactor" || containsSub (lowerS cs.summary) "cleanup" ||
        containsSub (lowerS cs.summary) "docs" || containsSub (lowerS cs.summary) "chore") = true))
    ∧ (heuristic_category cs = .Feature ↔
      ((containsSub (lowerS cs.summary) "fix" || containsSub (lowerS cs.summary) "bug" ||
        containsSub (lowerS cs.summary) "error") = false ∧
       (containsSub (lowerS cs.summary) "refactor" || containsSub (lowerS cs.summary) "cleanup" ||
        containsSub (lowerS cs.summary) "docs" || containsSub (lowerS cs.summary) "chore") = false))
    ∧ heuristic_category ⟨0, "Fix null pointer in parser"⟩ = .Fix
    ∧ heuristic_category ⟨0, "Refactor module layout"⟩ = .Quality
    ∧ heuristic_category ⟨0, "Add dark mode toggle"⟩ = .Feature := by
  refine ⟨?_, ?_, ?_, by decide, by decide, by decide⟩ <;>
  · unfold heuristic_category
    cases h1 : (containsSub (lowerS cs.summary) "fix" || containsSub (lowerS cs.summary) "bug" ||
        containsSub (lowerS cs.summary) "error") <;>
      cases h2 : (containsSub (lowerS cs.summary) "refactor" ||
          containsSub (lowerS cs.summary) "cleanup" ||
          containsSub (lowerS cs.summary) "docs" || containsSub (lowerS cs.summary) "chore") <;>
      simp_all

theorem cacheInsert_eq (entries : List CacheEntry) (key : String) (draft : TicketDraft) :
    TicketDraftCache.insert entries key draft =
      (entries.filter (fun e => e.key != key)).drop
          ((entries.filter (fun e => e.key != key)).length + 1 - CACHE_LIMIT)
        ++ [TicketDraftCache.entryOf key draft] := by
  unfold TicketDraftCache.insert CACHE_LIMIT
  by_cases h : (entries.filter (fun e => e.key != key)).length + 1 > 32
  · rw [if_pos (by simpa using h)]
    rw [show ((entries.filter (fun e => e.key != key)) ++
        [TicketDraftCache.entryOf key draft]).length =
        (entries.filter (fun e => e.key != key)).length + 1 by simp]
    rw [List.drop_append_of_le_length (by omega)]
  · rw [if_neg (by simpa using h)]
    rw [show (entries.filter (fun e => e.key != key)).length + 1 - 32 = 0 by omega,
      List.drop_zero]

theorem from_str_as_str (cat : BranchCategory) :
    BranchCategory.from_str cat.as_str = some cat := by
  cases cat <;> decide

theorem keptDrop_not_key {entries : List CacheEntry} {key : String} {k : Nat} {e : CacheEntry}
    (he : e ∈ (entries.filter (fun e => e.key != key)).drop k) : (e.key == key) = false := by
  have hmem : e ∈ entries.filter (fun e => e.key != key) := List.drop_subset _ _ he
  have := (List.mem_filter.mp hmem).2
  simpa [bne] using this

theorem keptDrop_filter_self (entries : List CacheEntry) (key : String) (k : Nat) :
    ((entries.filter (fun e => e.key != key)).drop k).filter (fun e => e.key != key) =
      (entries.filter (fun e => e.key != key)).drop k := by
  apply List.filter_eq_self.mpr
  intro e he
  simp [bne, keptDrop_not_key he]

theorem cacheInsert_twice (entries : List CacheEntry) (key : String) (d1 d2 : TicketDraft) :
    TicketDraftCache.insert (TicketDraftCache.insert entries key d1) key d2 =
      TicketDraftCache.insert entries key d2 := by
  rw [cacheInsert_eq entries key d1, cacheInsert_eq _ key d2, cacheInsert_eq entries key d2]
  have hb : ([TicketDraftCache.entryOf key d1].filter (fun e => e.key != key)) = [] := by
    simp [TicketDraftCache.entryOf]
  rw [List.filter_append, keptDrop_filter_self, hb, List.append_nil, List.drop_drop]
  have harith : ∀ L : Nat,
      (L + 1 - CACHE_LIMIT) + (L - (L + 1 - CACHE_LIMIT) + 1 - CACHE_LIMIT) =
        L + 1 - CACHE_LIMIT := by
    intro L
    simp [CACHE_LIMIT]
    omega
  rw [List.length_drop, harith]

set_option maxRecDepth 8000 in
/-- C2: `TicketDraftCache::insert` removes any same-key entry, appends
the new entry at the back, keeps at most 32 entries by evicting from the
front only (the result is a suffix of the unevicted sequence), leaves the
new draft retrievable under its key; inserting the same key twice equals
inserting only the latest draft; and inserting forty distinct keys into
an empty cache leaves exactly the 32 most recent retrievable. -/
theorem claim_C2_cache_insert (entries : List CacheEntry) (key : String)
    (draft d1 d2 : TicketDraft) :
    (TicketDraftCache.insert entries key draft).length ≤ 32
    ∧ (TicketDraftCache.insert entries key draft).filter (fun e => e.key == key) =
        [TicketDraftCache.entryOf key draft]
    ∧ (TicketDraftCache.insert entries key draft).getLast? =
        some (TicketDraftCache.entryOf key draft)
    ∧ TicketDraftCache.insert entries key draft <:+
        entries.filter (fun e => e.key != key) ++ [TicketDraftCache.entryOf key draft]
    ∧ TicketDraftCache.get (TicketDraftCache.insert entries key draft) key = some draft
    ∧ TicketDraftCache.insert (TicketDraftCache.insert entries key d1) key d2 =
        TicketDraftCache.insert entries key d2
    ∧ (List.range 40).map (fun i => TicketDraftCache.get cacheAfter40 (toString i)) =
        (List.range 40).map (fun i => if 8 ≤ i then some draftOk else none)
    ∧ cacheAfter40.length = 32 := by
  refine ⟨?_, ?_, ?_, ?_, ?_, cacheInsert_twice entries key d1 d2, by decide, by decide⟩
  · rw [cacheInsert_eq]
    simp [CACHE_LIMIT, List.length_append, List.length_drop]
    omega
  · rw [cacheInsert_eq, List.filter_append]
    have h1 : ((entries.filter (fun e => e.key != key)).drop
        ((entries.filter (fun e => e.key != key)).length + 1 - CACHE_LIMIT)).filter
        (fun e => e.key == key) = [] :=
      List.filter_eq_nil_iff.mpr (fun e he => by simp [keptDrop_not_key he])
    rw [h1]
    simp [TicketDraftCache.entryOf]
  · rw [cacheInsert_eq]
    exact List.getLast?_concat _
  · rw [cacheInsert_eq]
    exact ⟨(entries.filter (fun e => e.key != key)).take
        ((entries.filter (fun e => e.key != key)).length + 1 - CACHE_LIMIT),
      by rw [← List.append_assoc, List.take_append_drop]⟩
  · unfold TicketDraftCache.get
    rw [cacheInsert_eq, List.find?_append]
    have h1 : ((entries.filter (fun e => e.key != key)).drop
        ((entries.filter (fun e => e.key != key)).length + 1 - CACHE_LIMIT)).find?
        (fun e => e.key == key) = none :=
      List.find?_eq_none.mpr (fun e he => by simp [keptDrop_not_key he])
    rw [h1]
    simp only [Option.none_or, List.find?_singleton]
    rw [if_pos (by simp [TicketDraftCache.entryOf])]
    simp [TicketDraftCache.entryOf, from_str_as_str]

theorem toDigitsCore_acc (fuel n : Nat) (acc : List Char) :
    Nat.toDigitsCore 10 fuel n acc = Nat.toDigitsCore 10 fuel n [] ++ acc := by
  induction fuel generalizing n acc with
  | zero => simp [Nat.toDigitsCore]
  | succ f ih =>
    simp only [Nat.toDigitsCore]
    by_cases h : n / 10 = 0
    · simp [h]
    · rw [if_neg h, if_neg h, ih (n / 10) (Nat.digitChar (n % 10) :: acc),
        ih (n / 10) [Nat.digitChar (n % 10)]]
      simp

theorem digitVal_digitChar (m : Nat) (h : m < 10) : digitVal (Nat.digitChar m) = m := by
  interval_cases m <;> decide

theorem readDigits_concat (l : List Char) (c : Char) :
    readDigits (l ++ [c]) = 10 * readDigits l + digitVal c := by
  unfold readDigits
  rw [List.foldl_append]
  rfl

theorem readDigits_toDigitsCore (fuel n : Nat) (h : n < fuel) :
    readDigits (Nat.toDigitsCore 10 fuel n []) = n := by
  induction fuel generalizing n with
  | zero => omega
  | succ f ih =>
    simp only [Nat.toDigitsCore]
    by_cases h0 : n / 10 = 0
    · rw [if_pos h0]
      simp [readDigits, List.foldl, digitVal_digitChar (n % 10) (by omega)]
      omega
    · rw [if_neg h0, toDigitsCore_acc, readDigits_concat,
        ih (n / 10) (by omega), digitVal_digitChar (n % 10) (by omega)]
      omega

theorem nat_repr_inj {m n : Nat} (h : Nat.repr m = Nat.repr n) : m = n := by
  have hd : Nat.toDigits 10 m = Nat.toDigits 10 n := by
    have hdata := congrArg String.data h
    simpa [Nat.repr, List.asString] using hdata
  have hm := readDigits_toDigitsCore (m + 1) m (Nat.lt_succ_self m)
  have hn := readDigits_toDigitsCore (n + 1) n (Nat.lt_succ_self n)
  unfold Nat.toDigits at hd
  rw [← hm, ← hn, hd]

theorem string_append_cancel_right {a b t : String} (h : a ++ t = b ++ t) : a = b := by
  have hdata := congrArg String.data h
  rw [String.data_append, String.data_append] at hdata
  exact String.ext (List.append_cancel_right hdata)

theorem string_append_cancel_left {t a b : String} (h : t ++ a = t ++ b) : a = b := by
  have hdata := congrArg String.data h
  rw [String.data_append, String.data_append] at hdata
  exact String.ext (List.append_cancel_left hdata)

/-- C3 (amended): `compute_key` is deterministic for every hash function,
and single-argument changes alter the character stream fed to the hash
(hence the key, for any hash and in particular blake3) — for the summary,
for `files_changed`, and for the board whenever the two boards render to
different streams; the one exception, forced by the counterexample, is
that an absent board and a present-but-empty board feed identical streams
and therefore always collide. -/
theorem claim_C3_compute_key (hash : String → String) (s s' : String) (n n' : Nat)
    (b b' : Option String) :
    compute_key hash s n b = compute_key hash s n b
    ∧ (s ≠ s' → computeKeyInput s n b ≠ computeKeyInput s' n b)
    ∧ (n ≠ n' → computeKeyInput s n b ≠ computeKeyInput s n' b)
    ∧ ((match b with | some x => x | none => "") ≠
          (match b' with | some x => x | none => "") →
        computeKeyInput s n b ≠ computeKeyInput s n b') := by
  refine ⟨rfl, ?_, ?_, ?_⟩
  · intro hs heq
    unfold computeKeyInput at heq
    exact hs (string_append_cancel_right (string_append_cancel_right heq))
  · intro hn heq
    unfold computeKeyInput at heq
    have h1 := string_append_cancel_right heq
    have h2 := string_append_cancel_left h1
    exact hn (nat_repr_inj h2)
  · intro hb heq
    unfold computeKeyInput at heq
    exact hb (string_append_cancel_left heq)

/-- C3 witness: the amended claim evaluated at concrete inputs. -/
theorem claim_C3_compute_key_witness :
    compute_key (fun x => x) "a" 1 none = compute_key (fun x => x) "a" 1 none
    ∧ computeKeyInput "a" 1 none ≠ computeKeyInput "b" 1 none
    ∧ computeKeyInput "a" 1 none ≠ computeKeyInput "a" 2 none
    ∧ computeKeyInput "a" 1 (some "X") ≠ computeKeyInput "a" 1 (some "Y") :=
  ⟨(claim_C3_compute_key (fun x => x) "a" "b" 1 2 none none).1,
   (claim_C3_compute_key (fun x => x) "a" "b" 1 2 none none).2.1 (by decide),
   (claim_C3_compute_key (fun x => x) "a" "b" 1 2 none none).2.2.1 (by decide),
   (claim_C3_compute_key (fun x => x) "a" "b" 1 2 (some "X") (some "Y")).2.2.2 (by decide)⟩

/-- C3 counterexample: an absent board and a present empty board differ as
arguments yet feed the identical character stream to the hasher, so
`compute_key` returns the same key for both (for blake3 as for any hash),
refuting "inputs differing only in the board argument, including None
versus a present board, produce different keys". -/
theorem claim_C3_counterexample :
    (none : Option String) ≠ some ""
    ∧ computeKeyInput "a" 1 none = computeKeyInput "a" 1 (some "")
    ∧ compute_key (fun x => x) "a" 1 none = compute_key (fun x => x) "a" 1 (some "") :=
  ⟨by decide, by decide, by decide⟩

theorem splitOnP_ne_nil (p : Char → Bool) (l : List Char) : List.splitOnP p l ≠ [] := by
  induction l with
  | nil => simp [List.splitOnP_nil]
  | cons c rest ih =>
    rw [List.splitOnP_cons]
    by_cases h : p c
    · simp [h]
    · simp only [h, Bool.false_eq_true, if_false]
      cases hr : List.splitOnP p rest with
      | nil => exact absurd hr ih
      | cons g gs => simp [List.modifyHead]

theorem splitOnP_all_true (p : Char → Bool) (t : List Char) (ht : ∀ c ∈ t, p c = true) :
    List.splitOnP p t = List.replicate (t.length + 1) [] := by
  induction t with
  | nil => simp [List.splitOnP_nil]
  | cons c rest ih =>
    rw [List.splitOnP_cons, if_pos (ht c (List.mem_cons_self c rest))]
    rw [ih (fun c hc => ht c (List.mem_cons_of_mem _ hc))]
    simp [List.replicate_succ]

theorem splitOnP_append_ws (p : Char → Bool) (t l : List Char) (ht : ∀ c ∈ t, p c = true) :
    List.splitOnP p (l ++ t) = List.splitOnP p l ++ List.replicate t.length [] := by
  induction l with
  | nil =>
    rw [List.nil_append, List.splitOnP_nil, splitOnP_all_true p t ht]
    simp [List.replicate_succ]
  | cons c l ih =>
    rw [List.cons_append, List.splitOnP_cons, List.splitOnP_cons]
    by_cases h : p c
    · simp [h, ih]
    · simp only [h, Bool.false_eq_true, if_false]
      rw [ih]
      cases hsp : List.splitOnP p l with
      | nil => exact absurd hsp (splitOnP_ne_nil p l)
      | cons g gs => simp [List.modifyHead]

theorem splitWS_append_ws (l t : List Char) (ht : ∀ c ∈ t, isAsciiWhitespace c = true) :
    splitWS (l ++ t) = splitWS l := by
  unfold splitWS
  rw [splitOnP_append_ws _ t l ht, List.filter_append]
  have hrep : (List.replicate t.length ([] : List Char)).filter (fun w => !w.isEmpty) = [] := by
    apply List.filter_eq_nil_iff.mpr
    intro a ha
    have := List.eq_of_mem_replicate ha
    simp [this]
  rw [hrep, List.append_nil]

theorem splitWS_dropWhile_ws (l : List Char) :
    splitWS (l.dropWhile isAsciiWhitespace) = splitWS l := by
  induction l with
  | nil => rfl
  | cons c rest ih =>
    by_cases h : isAsciiWhitespace c
    · rw [List.dropWhile_cons_of_pos h, ih]
      unfold splitWS
      rw [List.splitOnP_cons, if_pos h]
      simp
    · rw [List.dropWhile_cons_of_neg h]

theorem splitWS_trimList (l : List Char) : splitWS (trimList l) = splitWS l := by
  unfold trimList trimBothP dropTrailing
  rw [← splitWS_dropWhile_ws l]
  set m := l.dropWhile isAsciiWhitespace with hm
  have h1 : m.reverse.takeWhile isAsciiWhitespace ++ m.reverse.dropWhile isAsciiWhitespace =
      m.reverse := List.takeWhile_append_dropWhile _ _
  have hdecomp : m = (m.reverse.dropWhile isAsciiWhitespace).reverse ++
      (m.reverse.takeWhile isAsciiWhitespace).reverse := by
    calc m = m.reverse.reverse := (List.reverse_reverse m).symm
    _ = (m.reverse.takeWhile isAsciiWhitespace ++
          m.reverse.dropWhile isAsciiWhitespace).reverse := by rw [h1]
    _ = (m.reverse.dropWhile isAsciiWhitespace).reverse ++
          (m.reverse.takeWhile isAsciiWhitespace).reverse := by
        rw [List.reverse_append]
  conv_rhs => rw [hdecomp]
  rw [splitWS_append_ws]
  intro c hc
  exact List.mem_takeWhile_imp (List.mem_reverse.mp hc)

/-- C6 (amended): the heuristic summary-slug equals the claim's algorithm
once the emptiness test reads "empty after trimming": empty trimmed
summary gives `pending-update` or `update-N-files` by `files_changed`;
otherwise the first 8 whitespace-separated words of the summary, each
stripped to ASCII letters, digits and hyphens and lowercased, empties
dropped, hyphen-joined, with `pending-update` when all words drop. -/
theorem claim_C6_heuristic_summary (cs : ChangeSummary) :
    heuristic_summary cs = amendedHeuristicSummary cs := by
  unfold heuristic_summary amendedHeuristicSummary claimWords
  have hdata : (trimS cs.summary).data = trimList cs.summary.data := rfl
  by_cases h : trimS cs.summary = ""
  · rw [if_pos h, if_pos h]
  · rw [if_neg h, if_neg h, hdata, splitWS_trimList]

/-- C6 counterexample: for a whitespace-only summary with three changed
files the code trims first and produces `update-3-files`, while the claim
(reading "summary is empty" literally) prescribes the word path and hence
`pending-update`. -/
theorem claim_C6_counterexample :
    claimHeuristicSummary ⟨3, " "⟩ = "pending-update"
    ∧ heuristic_summary ⟨3, " "⟩ = "update-3-files"
    ∧ heuristic_summary ⟨3, " "⟩ ≠ claimHeuristicSummary ⟨3, " "⟩ :=
  ⟨by decide, by decide, by decide⟩

theorem char_toNat_inj {a b : Char} (h : a.toNat = b.toNat) : a = b := by
  apply Char.ext
  unfold Char.toNat at h
  exact UInt32.toNat.inj h

theorem char_toNat_ofNat {n : Nat} (h : n < 55296) : (Char.ofNat n).toNat = n := by
  rw [Char.ofNat, dif_pos (Or.inl h)]
  rfl

theorem beq_char_eq_decide (a b : Char) : (a == b) = decide (a.toNat = b.toNat) := by
  by_cases h : a = b
  · subst h
    simp
  · have hnat : a.toNat ≠ b.toNat := fun hn => h (char_toNat_inj hn)
    rw [beq_eq_false_iff_ne.mpr h, decide_eq_false hnat]

theorem isAsciiWhitespace_iff (c : Char) :
    isAsciiWhitespace c = true ↔
      (c.toNat = 32 ∨ c.toNat = 9 ∨ c.toNat = 10 ∨ c.toNat = 13) := by
  unfold isAsciiWhitespace
  rw [beq_char_eq_decide, beq_char_eq_decide, beq_char_eq_decide, beq_char_eq_decide]
  rw [show (' ' : Char).toNat = 32 from rfl, show ('\t' : Char).toNat = 9 from rfl,
    show ('\n' : Char).toNat = 10 from rfl, show ('\r' : Char).toNat = 13 from rfl]
  simp
  tauto

theorem isAsciiAlphanumeric_iff (c : Char) :
    isAsciiAlphanumeric c = true ↔
      ((48 ≤ c.toNat ∧ c.toNat ≤ 57) ∨ (65 ≤ c.toNat ∧ c.toNat ≤ 90) ∨
        (97 ≤ c.toNat ∧ c.toNat ≤ 122)) := by
  unfold isAsciiAlphanumeric
  simp
  tauto

theorem toAsciiLower_toNat (c : Char) :
    (toAsciiLower c).toNat =
      if 65 ≤ c.toNat ∧ c.toNat ≤ 90 then c.toNat + 32 else c.toNat := by
  unfold toAsciiLower
  by_cases h : 65 ≤ c.toNat ∧ c.toNat ≤ 90
  · rw [if_pos h, if_pos h, char_toNat_ofNat (by omega)]
  · rw [if_neg h, if_neg h]

theorem toAsciiLower_idem (c : Char) : toAsciiLower (toAsciiLower c) = toAsciiLower c := by
  have h := toAsciiLower_toNat c
  show (if 65 ≤ (toAsciiLower c).toNat ∧ (toAsciiLower c).toNat ≤ 90 then
      Char.ofNat ((toAsciiLower c).toNat + 32) else toAsciiLower c) = toAsciiLower c
  apply if_neg
  by_cases hup : 65 ≤ c.toNat ∧ c.toNat ≤ 90
  · rw [if_pos hup] at h
    omega
  · rw [if_neg hup] at h
    omega

theorem ws_toAsciiLower (c : Char) :
    isAsciiWhitespace (toAsciiLower c) = isAsciiWhitespace c := by
  have h := toAsciiLower_toNat c
  by_cases hup : 65 ≤ c.toNat ∧ c.toNat ≤ 90
  · rw [if_pos hup] at h
    have h1 : isAsciiWhitespace (toAsciiLower c) = false := by
      rw [Bool.eq_false_iff, Ne, isAsciiWhitespace_iff]
      omega
    have h2 : isAsciiWhitespace c = false := by
      rw [Bool.eq_false_iff, Ne, isAsciiWhitespace_iff]
      omega
    rw [h1, h2]
  · rw [if_neg hup] at h
    rw [char_toNat_inj h]

theorem mapSlugChar_idem (c : Char) : mapSlugChar (mapSlugChar c) = mapSlugChar c := by
  by_cases ha : isAsciiAlphanumeric c = true
  · unfold mapSlugChar
    rw [if_pos ha]
    have halnum : isAsciiAlphanumeric (toAsciiLower c) = true := by
      rw [isAsciiAlphanumeric_iff] at ha ⊢
      have h := toAsciiLower_toNat c
      by_cases hup : 65 ≤ c.toNat ∧ c.toNat ≤ 90
      · rw [if_pos hup] at h
        omega
      · rw [if_neg hup] at h
        omega
    rw [if_pos halnum, toAsciiLower_idem]
  · have hc : mapSlugChar c = '-' := by
      unfold mapSlugChar
      rw [if_neg ha]
      by_cases hw : (isAsciiWhitespace c || c == '-' || c == '_' || c == '/') = true
      · rw [if_pos hw]
      · rw [if_neg hw]
    rw [hc]
    decide

theorem dropTrailing_isPrefixOf (p : Char → Bool) (l : List Char) : dropTrailing p l <+: l := by
  unfold dropTrailing
  have h : l.reverse.dropWhile p <:+ l.reverse := List.dropWhile_suffix p
  have h2 := List.reverse_prefix.mpr h
  rwa [List.reverse_reverse] at h2

theorem prefix_head?_eq {l m : List Char} {c : Char} (h : l <+: m) (hc : l.head? = some c) :
    m.head? = some c := by
  obtain ⟨t, rfl⟩ := h
  cases l with
  | nil => simp at hc
  | cons a r => simpa using hc

theorem head?_dropWhile_false {p : Char → Bool} {l : List Char} {c : Char}
    (h : (l.dropWhile p).head? = some c) : p c = false := by
  have hm := List.head?_dropWhile_not p l
  rw [h] at hm
  exact hm

theorem trimBothP_head? {p : Char → Bool} {l : List Char} {c : Char}
    (h : (trimBothP p l).head? = some c) : p c = false := by
  unfold trimBothP at h
  exact head?_dropWhile_false (prefix_head?_eq (dropTrailing_isPrefixOf p (l.dropWhile p)) h)

theorem trimBothP_getLast? {p : Char → Bool} {l : List Char} {c : Char}
    (h : (trimBothP p l).getLast? = some c) : p c = false := by
  unfold trimBothP dropTrailing at h
  rw [List.getLast?_reverse] at h
  exact head?_dropWhile_false h

theorem dropWhile_eq_self_of_head {p : Char → Bool} {l : List Char}
    (h : ∀ c, l.head? = some c → p c = false) : l.dropWhile p = l := by
  cases l with
  | nil => rfl
  | cons a r => exact List.dropWhile_cons_of_neg (by simp [h a rfl])

theorem trimBothP_eq_self {p : Char → Bool} {l : List Char}
    (hh : ∀ c, l.head? = some c → p c = false)
    (hl : ∀ c, l.getLast? = some c → p c = false) : trimBothP p l = l := by
  unfold trimBothP dropTrailing
  rw [dropWhile_eq_self_of_head hh]
  have hrev : l.reverse.dropWhile p = l.reverse := by
    apply dropWhile_eq_self_of_head
    intro c hc
    rw [List.head?_reverse] at hc
    exact hl c hc
  rw [hrev, List.reverse_reverse]

theorem mem_trimBothP {p : Char → Bool} {l : List Char} {c : Char}
    (h : c ∈ trimBothP p l) : c ∈ l := by
  unfold trimBothP dropTrailing at h
  have h2 : c ∈ (l.dropWhile p).reverse.dropWhile p := List.mem_reverse.mp h
  have h3 : c ∈ (l.dropWhile p).reverse := (List.dropWhile_sublist p).subset h2
  have h4 : c ∈ l.dropWhile p := List.mem_reverse.mp h3
  exact (List.dropWhile_sublist p).subset h4

theorem trimBothP_eq_self_of_all {p : Char → Bool} {l : List Char}
    (h : ∀ c ∈ l, p c = false) : trimBothP p l = l := by
  apply trimBothP_eq_self
  · intro c hc
    apply h c
    apply List.mem_of_mem_head?
    rw [hc]
    rfl
  · intro c hc
    apply h c
    have hmem : c ∈ l.getLast? := by
      rw [hc]
      rfl
    obtain ⟨hne, hEq⟩ := List.mem_getLast?_eq_getLast hmem
    rw [hEq]
    exact List.getLast_mem hne

theorem trimList_idem (l : List Char) : trimList (trimList l) = trimList l := by
  unfold trimList
  apply trimBothP_eq_self
  · intro c hc
    exact trimBothP_head? hc
  · intro c hc
    exact trimBothP_getLast? hc

theorem trimS_idem (s : String) : trimS (trimS s) = trimS s :=
  congrArg String.mk (trimList_idem s.data)

theorem dropWhile_map_lower {p : Char → Bool} {f : Char → Char}
    (hpf : ∀ c, p (f c) = p c) (l : List Char) :
    (l.map f).dropWhile p = (l.dropWhile p).map f := by
  induction l with
  | nil => rfl
  | cons a r ih =>
    by_cases h : p a = true
    · rw [List.map_cons, List.dropWhile_cons_of_pos (by rw [hpf]; exact h),
        List.dropWhile_cons_of_pos h, ih]
    · rw [List.map_cons, List.dropWhile_cons_of_neg (by rw [hpf]; exact h),
        List.dropWhile_cons_of_neg h, List.map_cons]

theorem trimList_lowerList (l : List Char) :
    trimList (lowerList l) = lowerList (trimList l) := by
  unfold trimList trimBothP dropTrailing lowerList
  rw [dropWhile_map_lower ws_toAsciiLower, ← List.map_reverse,
    dropWhile_map_lower ws_toAsciiLower, ← List.map_reverse]

theorem trimS_lowerS (s : String) : trimS (lowerS s) = lowerS (trimS s) :=
  congrArg String.mk (trimList_lowerList s.data)

theorem lowerList_idem (l : List Char) : lowerList (lowerList l) = lowerList l := by
  unfold lowerList
  rw [List.map_map]
  exact List.map_congr_left (fun a _ => toAsciiLower_idem a)

theorem lowerS_idem (s : String) : lowerS (lowerS s) = lowerS s :=
  congrArg String.mk (lowerList_idem s.data)

theorem lowerS_ne_empty {s : String} (h : s ≠ "") : lowerS s ≠ "" := by
  intro hc
  apply h
  have h1 : lowerList s.data = [] := congrArg String.data hc
  unfold lowerList at h1
  have h2 : s.data = [] := List.map_eq_nil_iff.mp h1
  apply String.ext
  rw [h2]

theorem digitChar_star {m : Nat} (h : 16 ≤ m) : Nat.digitChar m = '*' := by
  unfold Nat.digitChar
  repeat' rw [if_neg (by omega)]

theorem digitChar_props (m : Nat) :
    toAsciiLower (Nat.digitChar m) = Nat.digitChar m ∧
      isAsciiWhitespace (Nat.digitChar m) = false := by
  rcases Nat.lt_or_ge m 16 with h | h
  · interval_cases m <;> exact ⟨by decide, by decide⟩
  · rw [digitChar_star h]
    exact ⟨by decide, by decide⟩

theorem toDigitsCore_chars (P : Char → Prop) (hP : ∀ m, P (Nat.digitChar m)) :
    ∀ fuel n acc, (∀ c ∈ acc, P c) → ∀ c ∈ Nat.toDigitsCore 10 fuel n acc, P c := by
  intro fuel
  induction fuel with
  | zero =>
    intro n acc hacc c hc
    simp only [Nat.toDigitsCore] at hc
    exact hacc c hc
  | succ f ih =>
    intro n acc hacc c hc
    simp only [Nat.toDigitsCore] at hc
    by_cases h0 : n / 10 = 0
    · rw [if_pos h0] at hc
      rcases List.mem_cons.mp hc with h1 | h2
      · rw [h1]
        exact hP _
      · exact hacc c h2
    · rw [if_neg h0] at hc
      refine ih (n / 10) (Nat.digitChar (n % 10) :: acc) ?_ c hc
      intro d hd
      rcases List.mem_cons.mp hd with h1 | h2
      · rw [h1]
        exact hP _
      · exact hacc d h2

theorem repr_chars {n : Nat} {c : Char} (hc : c ∈ (toString n).data) :
    toAsciiLower c = c ∧ isAsciiWhitespace c = false := by
  have hrepr : (toString n).data = Nat.toDigitsCore 10 (n + 1) n [] := rfl
  rw [hrepr] at hc
  exact toDigitsCore_chars
    (fun c => toAsciiLower c = c ∧ isAsciiWhitespace c = false)
    digitChar_props (n + 1) n [] (by simp) c hc

theorem stable_of_chars {s : String}
    (h : ∀ c ∈ s.data, toAsciiLower c = c ∧ isAsciiWhitespace c = false) :
    trimS s = s ∧ lowerS s = s := by
  constructor
  · apply String.ext
    show trimList s.data = s.data
    unfold trimList
    exact trimBothP_eq_self_of_all (fun c hc => (h c hc).2)
  · apply String.ext
    show lowerList s.data = s.data
    unfold lowerList
    calc s.data.map toAsciiLower = s.data.map id :=
      List.map_congr_left (fun a ha => (h a ha).1)
    _ = s.data := List.map_id s.data

theorem slug_char_props (a : Char) (h : (isAsciiAlphanumeric a || a == '-') = true) :
    toAsciiLower (toAsciiLower a) = toAsciiLower a ∧
      isAsciiWhitespace (toAsciiLower a) = false := by
  refine ⟨toAsciiLower_idem a, ?_⟩
  rw [ws_toAsciiLower]
  rcases Bool.or_eq_true_iff.mp h with ha | hd
  · rw [Bool.eq_false_iff, Ne, isAsciiWhitespace_iff]
    rw [isAsciiAlphanumeric_iff] at ha
    omega
  · rw [beq_iff_eq.mp hd]
    decide

theorem mem_joinHyphens {ws : List (List Char)} {c : Char} (h : c ∈ joinHyphens ws) :
    c = '-' ∨ ∃ w ∈ ws, c ∈ w := by
  induction ws with
  | nil => simp [joinHyphens] at h
  | cons w rest ih =>
    cases rest with
    | nil =>
      right
      exact ⟨w, by simp, by simpa [joinHyphens] using h⟩
    | cons w2 ws2 =>
      rw [show joinHyphens (w :: w2 :: ws2) = w ++ '-' :: joinHyphens (w2 :: ws2) from rfl] at h
      rcases List.mem_append.mp h with h1 | h2
      · right
        exact ⟨w, List.mem_cons_self w _, h1⟩
      · rcases List.mem_cons.mp h2 with h3 | h4
        · left
          exact h3
        · rcases ih h4 with h5 | ⟨v, hv, hcv⟩
          · left
            exact h5
          · right
            exact ⟨v, List.mem_cons_of_mem _ hv, hcv⟩

theorem joinHyphens_ne_nil {ws : List (List Char)} (h : ws ≠ [])
    (hw : ∀ w ∈ ws, w ≠ []) : joinHyphens ws ≠ [] := by
  cases ws with
  | nil => exact absurd rfl h
  | cons w rest =>
    cases rest with
    | nil => simpa [joinHyphens] using hw w (by simp)
    | cons w2 ws2 =>
      rw [show joinHyphens (w :: w2 :: ws2) = w ++ '-' :: joinHyphens (w2 :: ws2) from rfl]
      simp

theorem words_pieces_props {l : List Char} {w : List Char}
    (hw : w ∈ (((splitWS l).take 8).map
        (fun v => lowerList (v.filter (fun c => isAsciiAlphanumeric c || c == '-')))).filter
      (fun v => !v.isEmpty)) :
    w ≠ [] ∧ ∀ c ∈ w, toAsciiLower c = c ∧ isAsciiWhitespace c = false := by
  obtain ⟨hmem, hne⟩ := List.mem_filter.mp hw
  constructor
  · simpa using hne
  · obtain ⟨v, hv, rfl⟩ := List.mem_map.mp hmem
    intro c hc
    unfold lowerList at hc
    obtain ⟨a, ha, rfl⟩ := List.mem_map.mp hc
    exact slug_char_props a (List.mem_filter.mp ha).2

theorem heuristic_summary_chars (cs : ChangeSummary) :
    ∀ c ∈ (heuristic_summary cs).data,
      toAsciiLower c = c ∧ isAsciiWhitespace c = false := by
  simp only [heuristic_summary]
  by_cases h1 : trimS cs.summary = ""
  · rw [if_pos h1]
    by_cases h2 : cs.files_changed = 0
    · rw [if_pos h2]
      decide
    · rw [if_neg h2]
      intro c hc
      rw [String.data_append, String.data_append] at hc
      rcases List.mem_append.mp hc with hc1 | hc2
      · rcases List.mem_append.mp hc1 with hc3 | hc4
        · have hconst : ∀ c ∈ "update-".data,
              toAsciiLower c = c ∧ isAsciiWhitespace c = false := by decide
          exact hconst c hc3
        · exact repr_chars hc4
      · have hconst : ∀ c ∈ "-files".data,
            toAsciiLower c = c ∧ isAsciiWhitespace c = false := by decide
        exact hconst c hc2
  · rw [if_neg h1]
    by_cases hw : ((((splitWS (trimS cs.summary).data).take 8).map
        (fun v => lowerList (v.filter (fun c => isAsciiAlphanumeric c || c == '-')))).filter
      (fun v => !v.isEmpty)).isEmpty = true
    · rw [if_pos hw]
      decide
    · rw [if_neg hw]
      intro c hc
      rcases mem_joinHyphens hc with hdash | ⟨w, hwmem, hcw⟩
      · rw [hdash]
        exact ⟨by decide, by decide⟩
      · exact (words_pieces_props hwmem).2 c hcw

theorem heuristic_summary_stable (cs : ChangeSummary) :
    trimS (heuristic_summary cs) = heuristic_summary cs
    ∧ lowerS (heuristic_summary cs) = heuristic_summary cs
    ∧ heuristic_summary cs ≠ "" := by
  refine ⟨(stable_of_chars (heuristic_summary_chars cs)).1,
    (stable_of_chars (heuristic_summary_chars cs)).2, ?_⟩
  simp only [heuristic_summary]
  by_cases h1 : trimS cs.summary = ""
  · rw [if_pos h1]
    by_cases h2 : cs.files_changed = 0
    · rw [if_pos h2]
      decide
    · rw [if_neg h2]
      intro hc
      have hdata := congrArg String.data hc
      rw [String.data_append, String.data_append] at hdata
      have hupd : ("update-" : String).data = [] := by
        rcases List.append_eq_nil.mp hdata with ⟨h3, _⟩
        exact (List.append_eq_nil.mp h3).1
      exact absurd hupd (by decide)
  · rw [if_neg h1]
    by_cases hw : ((((splitWS (trimS cs.summary).data).take 8).map
        (fun v => lowerList (v.filter (fun c => isAsciiAlphanumeric c || c == '-')))).filter
      (fun v => !v.isEmpty)).isEmpty = true
    · rw [if_pos hw]
      decide
    · rw [if_neg hw]
      intro hc
      have hjoin : joinHyphens ((((splitWS (trimS cs.summary).data).take 8).map
          (fun v => lowerList (v.filter (fun c => isAsciiAlphanumeric c || c == '-')))).filter
        (fun v => !v.isEmpty)) = [] := congrArg String.data hc
      have hne : ((((splitWS (trimS cs.summary).data).take 8).map
          (fun v => lowerList (v.filter (fun c => isAsciiAlphanumeric c || c == '-')))).filter
        (fun v => !v.isEmpty)) ≠ [] := by
        intro hnil
        rw [hnil] at hw
        exact hw rfl
      exact joinHyphens_ne_nil hne (fun w hwm => (words_pieces_props hwm).1) hjoin

theorem validate_draft_normalized (cs : ChangeSummary) (parsed : Option GeminiDraft) :
    validate_draft cs parsed = heuristic_ticket cs
    ∨ (trimS (validate_draft cs parsed).title = (validate_draft cs parsed).title
       ∧ (validate_draft cs parsed).title ≠ ""
       ∧ trimS (validate_draft cs parsed).description = (validate_draft cs parsed).description
       ∧ (validate_draft cs parsed).description ≠ ""
       ∧ (validate_draft cs parsed).branch_summary ≠ ""
       ∧ trimS (validate_draft cs parsed).branch_summary =
           (validate_draft cs parsed).branch_summary
       ∧ lowerS (validate_draft cs parsed).branch_summary =
           (validate_draft cs parsed).branch_summary) := by
  cases parsed with
  | none => exact Or.inl rfl
  | some draft =>
    have hred : validate_draft cs (some draft) =
        match BranchCategory.from_str draft.branch_category with
        | none => heuristic_ticket cs
        | some branch_category =>
          if trimS draft.title = "" then heuristic_ticket cs
          else if trimS draft.description = "" then heuristic_ticket cs
          else { title := trimS draft.title, description := trimS draft.description,
                 branch_category := branch_category,
                 branch_summary :=
                   if trimS draft.branch_summary = "" then heuristic_summary cs
                   else lowerS (trimS draft.branch_summary) } := rfl
    rw [hred]
    cases BranchCategory.from_str draft.branch_category with
    | none => exact Or.inl rfl
    | some cat =>
      dsimp only
      by_cases ht : trimS draft.title = ""
      · rw [if_pos ht]
        exact Or.inl rfl
      · rw [if_neg ht]
        by_cases hd : trimS draft.description = ""
        · rw [if_pos hd]
          exact Or.inl rfl
        · rw [if_neg hd]
          right
          refine ⟨trimS_idem _, ht, trimS_idem _, hd, ?_, ?_, ?_⟩ <;>
            by_cases hbs : trimS draft.branch_summary = ""
          · rw [if_pos hbs]
            exact (heuristic_summary_stable cs).2.2
          · rw [if_neg hbs]
            exact lowerS_ne_empty hbs
          · rw [if_pos hbs]
            exact (heuristic_summary_stable cs).1
          · rw [if_neg hbs]
            rw [trimS_lowerS, trimS_idem]
          · rw [if_pos hbs]
            exact (heuristic_summary_stable cs).2.1
          · rw [if_neg hbs]
            exact lowerS_idem _

/-- C10: every draft `draft_ticket` returns from the language-model path
(rather than the heuristic draft) is normalized: title and description
are trimmed and non-empty, and branch_summary is non-empty, trimmed and
fully lowercased (the model's value lowercased, or the heuristic slug
substituted when the model's value trims to empty). -/
theorem claim_C10_llm_normalized (k : String) (cs : ChangeSummary) (env : GeminiEnv)
    (d : TicketDraft) (h : draft_ticket (some k) cs env = .ok d) :
    d = heuristic_ticket cs
    ∨ (trimS d.title = d.title ∧ d.title ≠ ""
       ∧ trimS d.description = d.description ∧ d.description ≠ ""
       ∧ d.branch_summary ≠ "" ∧ trimS d.branch_summary = d.branch_summary
       ∧ lowerS d.branch_summary = d.branch_summary) := by
  obtain ⟨http, parse⟩ := env
  cases http with
  | sendError =>
    exact Or.inl (Except.ok.inj h).symm
  | response success body =>
    cases success with
    | false =>
      exact Or.inl (Except.ok.inj h).symm
    | true =>
      cases body with
      | none =>
        exact Or.inl (Except.ok.inj h).symm
      | some payload =>
        simp only [draft_ticket] at h
        cases hct : candidate_text payload with
        | none =>
          rw [hct] at h
          exact absurd h (by simp)
        | some text =>
          rw [hct] at h
          have hd : d = validate_draft cs (parse (normalize_json_blob text)) :=
            (Except.ok.inj h).symm
          rw [hd]
          exact validate_draft_normalized cs (parse (normalize_json_blob text))

/-- C10 witness: a concrete accepted model response; the returned draft is
the trimmed title and description with the lowercased trimmed slug. -/
theorem claim_C10_llm_normalized_witness :
    (⟨"New Title", "New Description", .Feature, "my-slug"⟩ : TicketDraft) =
        heuristic_ticket ⟨1, "stuff"⟩
    ∨ (trimS "New Title" = "New Title" ∧ ("New Title" : String) ≠ ""
       ∧ trimS "New Description" = "New Description" ∧ ("New Description" : String) ≠ ""
       ∧ ("my-slug" : String) ≠ "" ∧ trimS "my-slug" = "my-slug"
       ∧ lowerS "my-slug" = "my-slug") :=
  claim_C10_llm_normalized "k" ⟨1, "stuff"⟩ gmEnvAccepted
    ⟨"New Title", "New Description", .Feature, "my-slug"⟩ rfl

theorem validate_draft_some (cs : ChangeSummary) (draft : GeminiDraft) :
    validate_draft cs (some draft) =
      match BranchCategory.from_str draft.branch_category with
      | none => heuristic_ticket cs
      | some branch_category =>
        if trimS draft.title = "" then heuristic_ticket cs
        else if trimS draft.description = "" then heuristic_ticket cs
        else { title := trimS draft.title, description := trimS draft.description,
               branch_category := branch_category,
               branch_summary :=
                 if trimS draft.branch_summary = "" then heuristic_summary cs
                 else lowerS (trimS draft.branch_summary) } := rfl

theorem validate_draft_fallback (cs : ChangeSummary) (parsed : Option GeminiDraft)
    (h : parsed = none
      ∨ (∃ draft, parsed = some draft ∧ BranchCategory.from_str draft.branch_category = none)
      ∨ (∃ draft, parsed = some draft ∧ trimS draft.title = "")
      ∨ (∃ draft, parsed = some draft ∧ trimS draft.description = "")) :
    validate_draft cs parsed = heuristic_ticket cs := by
  rcases h with rfl | ⟨draft, rfl, hbc⟩ | ⟨draft, rfl, ht⟩ | ⟨draft, rfl, hd⟩
  · rfl
  · rw [validate_draft_some, hbc]
  · rw [validate_draft_some]
    cases BranchCategory.from_str draft.branch_category with
    | none => rfl
    | some cat =>
      dsimp only
      rw [if_pos ht]
  · rw [validate_draft_some]
    cases BranchCategory.from_str draft.branch_category with
    | none => rfl
    | some cat =>
      dsimp only
      by_cases ht : trimS draft.title = ""
      · rw [if_pos ht]
      · rw [if_neg ht, if_pos hd]

/-- C1 (amended): `draft_ticket` never fails for infrastructure reasons,
and each recovered failure mode falls back to the heuristic draft:
transport failure, non-success status and an unparseable body each return
exactly `heuristic_ticket`; a response with a usable text part returns the
validation gate's result, and that gate returns exactly `heuristic_ticket`
for unparseable JSON, an invalid branch_category, an empty title and an
empty description.  A missing API key propagates a Configuration error;
but, contrary to the claim, a successful parseable response with no
non-empty text part propagates a LanguageModel error ("Gemini returned an
empty response") instead of falling back, and that is exactly the only
other error case. -/
theorem claim_C1_draft_ticket (k : String) (cs : ChangeSummary) (env : GeminiEnv) :
    draft_ticket none cs env = .error (.Configuration "Gemini API key not configured")
    ∧ (env.http = .sendError →
        draft_ticket (some k) cs env = .ok (heuristic_ticket cs))
    ∧ (∀ body, env.http = .response false body →
        draft_ticket (some k) cs env = .ok (heuristic_ticket cs))
    ∧ (env.http = .response true none →
        draft_ticket (some k) cs env = .ok (heuristic_ticket cs))
    ∧ (∀ payload text, env.http = .response true (some payload) →
        candidate_text payload = some text →
        draft_ticket (some k) cs env =
          .ok (validate_draft cs (env.parseDraft (normalize_json_blob text))))
    ∧ (∀ parsed, (parsed = none
        ∨ (∃ draft, parsed = some draft ∧
            BranchCategory.from_str draft.branch_category = none)
        ∨ (∃ draft, parsed = some draft ∧ trimS draft.title = "")
        ∨ (∃ draft, parsed = some draft ∧ trimS draft.description = "")) →
        validate_draft cs parsed = heuristic_ticket cs)
    ∧ ((∃ d, draft_ticket (some k) cs env = .ok d) ∨
        draft_ticket (some k) cs env =
          .error (.LanguageModel "Gemini returned an empty response"))
    ∧ (draft_ticket (some k) cs env =
          .error (.LanguageModel "Gemini returned an empty response")
        ↔ emptyTextResponse env) := by
  refine ⟨rfl, ?_, ?_, ?_, ?_, fun parsed h => validate_draft_fallback cs parsed h, ?_, ?_⟩
  · intro heq
    simp [draft_ticket, heq]
  · intro body heq
    simp [draft_ticket, heq]
  · intro heq
    simp [draft_ticket, heq]
  · intro payload text heq hct
    simp [draft_ticket, heq, hct]
  · cases henv : env.http with
    | sendError =>
      exact Or.inl ⟨heuristic_ticket cs, by simp [draft_ticket, henv]⟩
    | response success body =>
      cases success with
      | false =>
        exact Or.inl ⟨heuristic_ticket cs, by simp [draft_ticket, henv]⟩
      | true =>
        cases body with
        | none =>
          exact Or.inl ⟨heuristic_ticket cs, by simp [draft_ticket, henv]⟩
        | some payload =>
          cases hct : candidate_text payload with
          | none =>
            exact Or.inr (by simp [draft_ticket, henv, hct])
          | some text =>
            exact Or.inl ⟨validate_draft cs (env.parseDraft (normalize_json_blob text)),
              by simp [draft_ticket, henv, hct]⟩
  · cases henv : env.http with
    | sendError => simp [draft_ticket, emptyTextResponse, henv]
    | response success body =>
      cases success with
      | false => simp [draft_ticket, emptyTextResponse, henv]
      | true =>
        cases body with
        | none => simp [draft_ticket, emptyTextResponse, henv]
        | some payload =>
          cases hct : candidate_text payload with
          | none => simp [draft_ticket, emptyTextResponse, henv, hct]
          | some text => simp [draft_ticket, emptyTextResponse, henv, hct]

/-- C1 witness: the amended claim applied at concrete environments: the
three transport-level failure modes each return exactly the heuristic
draft, the accepted path returns the validation gate's result, the four
gate failure modes each return exactly the heuristic draft, and the
empty-text response yields the LanguageModel error. -/
theorem claim_C1_draft_ticket_witness :
    draft_ticket (some "k") ⟨2, "Fix bug"⟩ ⟨.sendError, fun _ => none⟩ =
        .ok (heuristic_ticket ⟨2, "Fix bug"⟩)
    ∧ draft_ticket (some "k") ⟨2, "Fix bug"⟩ ⟨.response false none, fun _ => none⟩ =
        .ok (heuristic_ticket ⟨2, "Fix bug"⟩)
    ∧ draft_ticket (some "k") ⟨2, "Fix bug"⟩ ⟨.response true none, fun _ => none⟩ =
        .ok (heuristic_ticket ⟨2, "Fix bug"⟩)
    ∧ draft_ticket (some "k") ⟨2, "Fix bug"⟩ gmEnvAccepted =
        .ok (validate_draft ⟨2, "Fix bug"⟩
          (gmEnvAccepted.parseDraft (normalize_json_blob "x")))
    ∧ validate_draft ⟨2, "Fix bug"⟩ none = heuristic_ticket ⟨2, "Fix bug"⟩
    ∧ validate_draft ⟨2, "Fix bug"⟩ (some ⟨"t", "d", "bogus", "s"⟩) =
        heuristic_ticket ⟨2, "Fix bug"⟩
    ∧ validate_draft ⟨2, "Fix bug"⟩ (some ⟨" ", "d", "feature", "s"⟩) =
        heuristic_ticket ⟨2, "Fix bug"⟩
    ∧ validate_draft ⟨2, "Fix bug"⟩ (some ⟨"t", " ", "feature", "s"⟩) =
        heuristic_ticket ⟨2, "Fix bug"⟩
    ∧ draft_ticket (some "k") ⟨0, ""⟩ gmEnvEmptyText =
        .error (.LanguageModel "Gemini returned an empty response") :=
  ⟨(claim_C1_draft_ticket "k" ⟨2, "Fix bug"⟩ ⟨.sendError, fun _ => none⟩).2.1 rfl,
   (claim_C1_draft_ticket "k" ⟨2, "Fix bug"⟩ ⟨.response false none, fun _ => none⟩).2.2.1
     none rfl,
   (claim_C1_draft_ticket "k" ⟨2, "Fix bug"⟩ ⟨.response true none, fun _ => none⟩).2.2.2.1
     rfl,
   (claim_C1_draft_ticket "k" ⟨2, "Fix bug"⟩ gmEnvAccepted).2.2.2.2.1
     ⟨[⟨some ⟨[⟨some "x"⟩]⟩⟩]⟩ "x" rfl rfl,
   (claim_C1_draft_ticket "k" ⟨2, "Fix bug"⟩ gmEnvAccepted).2.2.2.2.2.1
     none (Or.inl rfl),
   (claim_C1_draft_ticket "k" ⟨2, "Fix bug"⟩ gmEnvAccepted).2.2.2.2.2.1
     (some ⟨"t", "d", "bogus", "s"⟩)
     (Or.inr (Or.inl ⟨⟨"t", "d", "bogus", "s"⟩, rfl, by decide⟩)),
   (claim_C1_draft_ticket "k" ⟨2, "Fix bug"⟩ gmEnvAccepted).2.2.2.2.2.1
     (some ⟨" ", "d", "feature", "s"⟩)
     (Or.inr (Or.inr (Or.inl ⟨⟨" ", "d", "feature", "s"⟩, rfl, by decide⟩))),
   (claim_C1_draft_ticket "k" ⟨2, "Fix bug"⟩ gmEnvAccepted).2.2.2.2.2.1
     (some ⟨"t", " ", "feature", "s"⟩)
     (Or.inr (Or.inr (Or.inr ⟨⟨"t", " ", "feature", "s"⟩, rfl, by decide⟩))),
   (claim_C1_draft_ticket "k" ⟨0, ""⟩ gmEnvEmptyText).2.2.2.2.2.2.2.mpr rfl⟩

/-- C1 counterexample: with the API key configured and a successful,
parseable response whose candidates hold no non-empty text part,
`draft_ticket` returns a hard LanguageModel error instead of the
heuristic fallback, refuting "propagates a hard error only when the API
key is not configured". -/
theorem claim_C1_counterexample :
    draft_ticket (some "key") ⟨0, ""⟩ gmEnvEmptyText =
      .error (.LanguageModel "Gemini returned an empty response")
    ∧ (some "key" : Option String) ≠ none :=
  ⟨rfl, by decide⟩

theorem mem_collapseDashes {c : Char} :
    ∀ {l : List Char} {p : Bool}, c ∈ collapseDashes l p → c ∈ l := by
  intro l
  induction l with
  | nil =>
    intro p h
    simp [collapseDashes] at h
  | cons a r ih =>
    intro p h
    simp only [collapseDashes] at h
    split at h
    · split at h
      · exact List.mem_cons_of_mem a (ih h)
      · rcases List.mem_cons.mp h with h1 | h2
        · rw [h1]
          exact List.mem_cons_self a r
        · exact List.mem_cons_of_mem a (ih h2)
    · rcases List.mem_cons.mp h with h1 | h2
      · rw [h1]
        exact List.mem_cons_self a r
      · exact List.mem_cons_of_mem a (ih h2)

theorem collapseDashes_cons (a : Char) (r : List Char) (p : Bool) :
    collapseDashes (a :: r) p =
      if (a == '-') = true then
        (if p = true then collapseDashes r true else a :: collapseDashes r true)
      else a :: collapseDashes r false := rfl

theorem collapse_head_true {l : List Char} {c : Char}
    (h : (collapseDashes l true).head? = some c) : c ≠ '-' := by
  induction l with
  | nil => simp [collapseDashes] at h
  | cons a r ih =>
    rw [collapseDashes_cons] at h
    by_cases ha : (a == '-') = true
    · rw [if_pos ha, if_pos rfl] at h
      exact ih h
    · rw [if_neg ha] at h
      have hac : a = c := by simpa using h
      rw [← hac]
      exact beq_eq_false_iff_ne.mp (Bool.eq_false_iff.mpr ha)

theorem chain'_collapseDashes (l : List Char) (p : Bool) :
    List.Chain' (fun a b => a = '-' → b ≠ '-') (collapseDashes l p) := by
  induction l generalizing p with
  | nil => simp [collapseDashes]
  | cons a r ih =>
    rw [collapseDashes_cons]
    by_cases ha : (a == '-') = true
    · rw [if_pos ha]
      cases p with
      | true =>
        rw [if_pos rfl]
        exact ih true
      | false =>
        rw [if_neg (by simp)]
        rw [List.chain'_cons']
        refine ⟨?_, ih true⟩
        intro y hy _
        exact collapse_head_true hy
    · rw [if_neg ha]
      rw [List.chain'_cons']
      refine ⟨?_, ih false⟩
      intro y hy heq
      exact absurd heq (beq_eq_false_iff_ne.mp (Bool.eq_false_iff.mpr ha))

theorem collapse_getLast {c : Char} (hne : c ≠ '-') :
    ∀ {l : List Char}, l.getLast? = some c → ∀ p, (collapseDashes l p).getLast? = some c := by
  intro l
  induction l with
  | nil =>
    intro h
    simp at h
  | cons a r ih =>
    intro h p
    cases r with
    | nil =>
      have hac : a = c := by simpa using h
      subst hac
      have ha : (a == '-') = false := beq_eq_false_iff_ne.mpr hne
      rw [collapseDashes_cons, if_neg (by simp [ha])]
      rfl
    | cons b r2 =>
      rw [List.getLast?_cons_cons] at h
      rw [collapseDashes_cons]
      by_cases ha : (a == '-') = true
      · cases p with
        | true =>
          rw [if_pos ha, if_pos rfl]
          exact ih h true
        | false =>
          rw [if_pos ha, if_neg (by simp)]
          have hm := ih h true
          cases hm2 : collapseDashes (b :: r2) true with
          | nil =>
            rw [hm2] at hm
            simp at hm
          | cons x xs =>
            rw [hm2] at hm
            rw [List.getLast?_cons_cons]
            exact hm
      · rw [if_neg ha]
        have hm := ih h false
        cases hm2 : collapseDashes (b :: r2) false with
        | nil =>
          rw [hm2] at hm
          simp at hm
        | cons x xs =>
          rw [hm2] at hm
          rw [List.getLast?_cons_cons]
          exact hm

theorem collapse_eq_self {l : List Char}
    (hch : List.Chain' (fun a b => a = '-' → b ≠ '-') l) :
    collapseDashes l false = l ∧
      ((∀ c, l.head? = some c → c ≠ '-') → collapseDashes l true = l) := by
  induction l with
  | nil => exact ⟨rfl, fun _ => rfl⟩
  | cons a r ih =>
    have hch' : List.Chain' (fun a b => a = '-' → b ≠ '-') r := hch.tail
    obtain ⟨ih1, ih2⟩ := ih hch'
    constructor
    · rw [collapseDashes_cons]
      by_cases ha : (a == '-') = true
      · rw [if_pos ha, if_neg (by simp)]
        congr 1
        apply ih2
        intro c hcr
        have hR := (List.chain'_cons'.mp hch).1 c (by rw [hcr]; rfl)
        exact hR (beq_iff_eq.mp ha)
      · rw [if_neg ha]
        congr 1
    · intro hhead
      rw [collapseDashes_cons]
      by_cases ha : (a == '-') = true
      · exact absurd (beq_iff_eq.mp ha) (hhead a rfl)
      · rw [if_neg ha]
        congr 1

theorem slugifyList_chars_fixed {l : List Char} {c : Char}
    (h : c ∈ collapseDashes (trimDashes (l.map mapSlugChar)) false) :
    mapSlugChar c = c := by
  have h1 : c ∈ trimDashes (l.map mapSlugChar) := mem_collapseDashes h
  have h2 : c ∈ l.map mapSlugChar := mem_trimBothP h1
  obtain ⟨a, _, rfl⟩ := List.mem_map.mp h2
  exact mapSlugChar_idem a

theorem slugifyList_idem (l : List Char) : slugifyList (slugifyList l) = slugifyList l := by
  by_cases hout : collapseDashes (trimDashes (l.map mapSlugChar)) false = []
  · have hl : slugifyList l = "summary".data := by
      simp only [slugifyList]
      rw [if_pos hout]
    rw [hl]
    decide
  · have hl : slugifyList l = collapseDashes (trimDashes (l.map mapSlugChar)) false := by
      simp only [slugifyList]
      rw [if_neg hout]
    rw [hl]
    set out := collapseDashes (trimDashes (l.map mapSlugChar)) false with hdef
    have hmap : out.map mapSlugChar = out := by
      calc out.map mapSlugChar = out.map id :=
        List.map_congr_left (fun a ha => slugifyList_chars_fixed ha)
      _ = out := List.map_id out
    have hhead : ∀ c, out.head? = some c → c ≠ '-' := by
      intro c hc
      cases ht : trimDashes (l.map mapSlugChar) with
      | nil =>
        rw [hdef, ht] at hc
        simp [collapseDashes] at hc
      | cons b r2 =>
        have hb : (b == '-') = false := by
          have hh : (trimBothP (fun c => c == '-') (l.map mapSlugChar)).head? = some b := by
            show (trimDashes (l.map mapSlugChar)).head? = some b
            rw [ht]
            rfl
          exact @trimBothP_head? (fun c => c == '-') (l.map mapSlugChar) b hh
        have hco : out = b :: collapseDashes r2 false := by
          rw [hdef, ht, collapseDashes_cons, if_neg (by simp [hb])]
        rw [hco] at hc
        have hbc : b = c := by simpa using hc
        rw [← hbc]
        exact beq_eq_false_iff_ne.mp hb
    have htne : trimDashes (l.map mapSlugChar) ≠ [] := by
      intro hnil
      apply hout
      rw [hdef, hnil]
      rfl
    have hlastp : ∀ c, out.getLast? = some c → c ≠ '-' := by
      intro c hc
      have hlast : (trimDashes (l.map mapSlugChar)).getLast? =
          some ((trimDashes (l.map mapSlugChar)).getLast htne) :=
        List.getLast?_eq_getLast _ htne
      have hdne : ((trimDashes (l.map mapSlugChar)).getLast htne) ≠ '-' :=
        beq_eq_false_iff_ne.mp
          (@trimBothP_getLast? (fun c => c == '-') (l.map mapSlugChar)
            ((trimDashes (l.map mapSlugChar)).getLast htne) hlast)
      have hm := collapse_getLast hdne hlast false
      rw [hdef] at hc
      rw [hm] at hc
      have hcd := Option.some.inj hc
      rw [← hcd]
      exact hdne
    have htrim : trimDashes out = out := by
      unfold trimDashes
      apply trimBothP_eq_self
      · intro c hc
        exact beq_eq_false_iff_ne.mpr (hhead c hc)
      · intro c hc
        exact beq_eq_false_iff_ne.mpr (hlastp c hc)
    have hch : List.Chain' (fun a b => a = '-' → b ≠ '-') out :=
      chain'_collapseDashes (trimDashes (l.map mapSlugChar)) false
    have hcol : collapseDashes out false = out := (collapse_eq_self hch).1
    show slugifyList out = out
    simp only [slugifyList]
    rw [hmap, htrim, hcol, if_neg hout]

/-- C4: `slugify` is idempotent, and normalizes as specified on the three
concrete examples (the placeholder token for the empty input is
`"summary"`). -/
theorem claim_C4_slugify (x : String) :
    slugify (slugify x) = slugify x
    ∧ slugify "Add Git integration for checkout" = "add-git-integration-for-checkout"
    ∧ slugify "  --Weird__Chars//here--  " = "weird-chars-here"
    ∧ slugify "" = "summary" :=
  ⟨congrArg String.mk (slugifyList_idem x.data), by decide, by decide, by decide⟩
